import Mathlib

/-
  Verification development for the wealth_tracker ingestion pipeline.

  The Python sources are shallowly embedded:
  * money values are exact fixed-point integers counted in hundredths
    (the code uses `Decimal`, and every currency cell of the supported
    statement exports carries at most two fractional digits),
  * calendar dates are encoded as the natural number y*10000 + m*100 + d,
    so that numeric order coincides with chronological order (and with the
    lexicographic order of the stored `YYYY-MM-DD` strings),
  * SQLite tables are lists of rows kept in rowid order; `INTEGER PRIMARY
    KEY` assignment is modelled as `max existing id + 1`,
  * fallible Python code (exceptions caught by the callers) returns
    `Option`.
-/

namespace WealthTracker

/-- Strip the currency symbol and thousands separators, as in the Python
`str(x).replace('$', '').replace(',', '')` used by the row normalizers
(removing every occurrence of a one-character pattern is a filter). -/
def cleanCell (s : String) : String :=
  String.mk (s.data.filter (fun c => c != '$' && c != ','))

/-- Split a character list at every occurrence of `sep`, keeping empty
groups, matching `str.split(sep)` / `String.splitOn` for a one-character
separator. -/
def splitOnChar (sep : Char) : List Char → List (List Char)
  | [] => [[]]
  | c :: cs =>
    if c = sep then [] :: splitOnChar sep cs
    else
      match splitOnChar sep cs with
      | [] => [[c]]
      | g :: gs => (c :: g) :: gs

/-- Strip leading and trailing whitespace, as in Python `str.strip()`. -/
def trimStr (s : String) : String :=
  String.mk ((((s.data.dropWhile Char.isWhitespace).reverse).dropWhile
    Char.isWhitespace).reverse)

/-- Lower-case every character, as in Python `str.lower()`. -/
def lowerStr (s : String) : String :=
  String.mk (s.data.map Char.toLower)

/-- Value of a decimal digit character, `none` for anything else. -/
def digit? (c : Char) : Option Nat :=
  if c.isDigit then some (c.toNat - 48) else none

/-- Read a digit string as a natural number; `none` on any non-digit.
The empty string reads as `0` (used for an empty optional part). -/
def digitsOpt : List Char → Option Nat
  | [] => some 0
  | c :: cs =>
    match digit? c, digitsOpt cs with
    | some d, some n => some (d * 10 ^ cs.length + n)
    | _, _ => none

/-- Read a non-empty digit string as a natural number. -/
def digitsVal (cs : List Char) : Option Nat :=
  if cs.isEmpty then none else digitsOpt cs

/-- Parse a decimal numeric string (optional sign, integer digits, optional
fractional digits) into an exact amount in hundredths, mirroring
`Decimal(str)` / `float(str)` on the currency strings of the statement
exports (which carry at most two fractional digits); `none` when the
string does not have this shape. -/
def parseDecimal (s : String) : Option Int :=
  let core : List Char → Option Int := fun b =>
    match splitOnChar '.' b with
    | [ip] => (digitsVal ip).map (fun n => (n : Int) * 100)
    | [ip, fp] =>
      if ip.isEmpty && fp.isEmpty then none
      else if fp.length ≤ 2 then
        match digitsOpt ip, digitsOpt fp with
        | some n, some f =>
          some ((n : Int) * 100 + (f * 10 ^ (2 - fp.length) : Nat))
        | _, _ => none
      else none
    | _ => none
  match s.data with
  | [] => none
  | '-' :: rest => (core rest).map (fun q => -q)
  | '+' :: rest => core rest
  | cs => core cs

/-- Gregorian leap-year test. -/
def isLeap (y : Nat) : Bool :=
  (y % 4 == 0 && y % 100 != 0) || (y % 400 == 0)

/-- Number of days in a month, as validated by `datetime.strptime`. -/
def daysInMonth (y m : Nat) : Nat :=
  if m = 2 then (if isLeap y then 29 else 28)
  else if m = 4 ∨ m = 6 ∨ m = 9 ∨ m = 11 then 30
  else 31

/-- Encode a validated calendar date as y*10000 + m*100 + d. -/
def mkDate? (y m d : Nat) : Option Nat :=
  if 1 ≤ m ∧ m ≤ 12 ∧ 1 ≤ d ∧ d ≤ daysInMonth y m then
    some (y * 10000 + m * 100 + d)
  else none

/-- Model of `FileHandler._parse_date`: try `MM/DD/YYYY`, then `YYYY-MM-DD`;
`none` when neither format matches (the Python raises `ValueError`). -/
def parse_date (s : String) : Option Nat :=
  match splitOnChar '/' s.data with
  | [ms, ds, ys] => do
    mkDate? (← digitsVal ys) (← digitsVal ms) (← digitsVal ds)
  | _ =>
    match splitOnChar '-' s.data with
    | [ys, ms, ds] => do
      mkDate? (← digitsVal ys) (← digitsVal ms) (← digitsVal ds)
    | _ => none

/-- The in-memory `Transaction` dataclass (`models/transaction.py`).
`date` is optional because the validator explicitly guards against a
missing date. -/
structure Transaction where
  date : Option Nat
  description : String
  amount : Int
  category : String
  account : String := ""
  balance : Option Int := none
deriving Repr, DecidableEq

/-- Model of `FileHandler.validate_transaction`, with `now` the current date:
the if-chain of checks, first failure wins. -/
def validate_transaction (now : Nat) (t : Transaction) : Bool × String :=
  if trimStr t.description = "" then (false, "Description cannot be empty")
  else if trimStr t.category = "" then (false, "Category cannot be empty")
  else if t.amount = 0 then (false, "Amount cannot be zero")
  else if t.date = none then (false, "Date is required")
  else if t.account = "PNC Checking" ∧ t.balance = none then
    (false, "Balance is required for PNC transactions")
  else if now < t.date.getD 0 then
    (false, "Transaction date cannot be in the future")
  else if (5000000 : Int) < |t.amount| then
    (false, "Transaction amount exceeds reasonable limit")
  else (true, "")

/-- The validation rules in the order the specification lists them, each
paired with its message.  This definition follows the words of the spec
(rule order and first-failure reporting) and is compared against the
code-derived `validate_transaction`. -/
def specRules (now : Nat) (t : Transaction) : List (Bool × String) :=
  [ (trimStr t.description == "", "Description cannot be empty"),
    (trimStr t.category == "", "Category cannot be empty"),
    (t.amount == 0, "Amount cannot be zero"),
    (t.date.isNone, "Date is required"),
    (t.account == "PNC Checking" && t.balance.isNone,
      "Balance is required for PNC transactions"),
    (decide (now < t.date.getD 0), "Transaction date cannot be in the future"),
    (decide ((5000000 : Int) < |t.amount|),
      "Transaction amount exceeds reasonable limit") ]

/-- Message of the first failing rule, if any. -/
def specFirstFailure (now : Nat) (t : Transaction) : Option String :=
  ((specRules now t).find? (fun r => r.1)).map (fun r => r.2)

/-- One raw row of the PNC (withdrawal/deposit) format; `none` in a cell
stands for a null (NaN) value as produced by the CSV reader. -/
structure PncRow where
  date : String
  description : String
  withdrawals : Option String
  deposits : Option String
  category : String
  balance : String
deriving Repr, DecidableEq

/-- The amount computation of `FileHandler._process_pnc`: null cells
become the sentinel string `"0"`, a non-sentinel withdrawal is negated,
otherwise a non-sentinel deposit is used, otherwise the amount is zero. -/
def pncAmount (withdrawals deposits : Option String) : Option Int :=
  let w := match withdrawals with | none => "0" | some s => cleanCell s
  let d := match deposits with | none => "0" | some s => cleanCell s
  if w ≠ "0" then (parseDecimal w).map (fun x => -x)
  else if d ≠ "0" then parseDecimal d
  else some 0

/-- Model of `FileHandler._process_pnc` on one row; `none` when the row raises and
is dropped. -/
def processPncRow (r : PncRow) : Option Transaction :=
  match pncAmount r.withdrawals r.deposits,
      parseDecimal (cleanCell r.balance), parse_date r.date with
  | some amount, some bal, some d =>
    some { date := some d, description := trimStr r.description, amount,
           category := trimStr r.category, account := "PNC Checking",
           balance := some bal }
  | _, _, _ => none

/-- One raw row of the Chase (type-tagged) format. -/
structure ChaseRow where
  transaction_date : String
  post_date : String
  description : String
  category : String
  type : String
  amount : String
  memo : String
deriving Repr, DecidableEq

/-- Amount of a Chase row: the cleaned parse, negated when the `Type` tag
lower-cases to one of the outflow tags `sale` / `payment`. -/
def chaseAmount (typeTag : String) (a : Int) : Int :=
  if lowerStr typeTag = "sale" ∨ lowerStr typeTag = "payment" then -a else a

/-- Description of a Chase row: the trimmed memo, when non-empty and
different from the trimmed description, is appended after a delimiter. -/
def chaseDescription (description memo : String) : String :=
  let d := trimStr description
  let m := trimStr memo
  if m ≠ "" ∧ m ≠ d then d ++ " - " ++ m else d

/-- Model of `FileHandler._process_chase` on one row. -/
def processChaseRow (account_name : String) (r : ChaseRow) : Option Transaction :=
  match parseDecimal (cleanCell r.amount), parse_date r.transaction_date with
  | some a, some d =>
    some { date := some d, description := chaseDescription r.description r.memo,
           amount := chaseAmount r.type a, category := trimStr r.category,
           account := account_name, balance := none }
  | _, _ => none

/-- One raw row of the Capital One (debit/credit) format. -/
structure CapOneRow where
  transaction_date : String
  posted_date : String
  card_no : String
  description : String
  category : String
  debit : Option String
  credit : Option String
deriving Repr, DecidableEq

/-- Amount of a Capital One row: a present debit cell is negated,
otherwise a present credit cell is used, otherwise zero. -/
def capOneAmount (debit credit : Option String) : Option Int :=
  match debit with
  | some s => (parseDecimal s).map (fun x => -x)
  | none =>
    match credit with
    | some s => parseDecimal s
    | none => some 0

/-- Model of `FileHandler._process_capital_one` on one row. -/
def processCapitalOneRow (r : CapOneRow) : Option Transaction :=
  match parse_date r.transaction_date, capOneAmount r.debit r.credit with
  | some d, some amount =>
    some { date := some d, description := trimStr r.description, amount,
           category := trimStr r.category, account := "Capital One",
           balance := none }
  | _, _ => none

/-- Model of `CSVHandler.clean_currency` (csv_handler.py): null or empty input is
absent (`none`), otherwise symbols and separators are stripped, the result
trimmed and parsed; an unparseable value is also absent. -/
def clean_currency (value : Option String) : Option Int :=
  match value with
  | none => none
  | some s =>
    if s = "" then none
    else parseDecimal (trimStr (cleanCell s))

/-- One row of the `transactions` table. -/
structure TxnRow where
  id : Nat
  account_id : Nat
  file_id : Option Nat
  date : Nat
  description : String
  amount : Int
  category : String
  balance : Option Int
deriving Repr, DecidableEq

/-- One row of the `processed_files` table. -/
structure ProcFile where
  id : Nat
  filename : String
  account_id : Nat
deriving Repr, DecidableEq

/-- The persistent store: the three tables, each kept in rowid order. -/
structure DBState where
  accounts : List (Nat × String)
  processed_files : List ProcFile
  transactions : List TxnRow
deriving Repr, DecidableEq

/-- Largest id in use (0 when the table is empty). -/
def maxId (l : List Nat) : Nat := l.foldr max 0

/-- Rowid SQLite assigns to the next `processed_files` insert. -/
def freshFileId (db : DBState) : Nat :=
  maxId (db.processed_files.map ProcFile.id) + 1

/-- Rowid SQLite assigns to the next `transactions` insert. -/
def freshTxnId (db : DBState) : Nat :=
  maxId (db.transactions.map TxnRow.id) + 1

/-- The `name → id` account lookup used by the inserts. -/
def lookupAccount (db : DBState) (name : String) : Option Nat :=
  (db.accounts.find? (fun p => p.2 == name)).map Prod.fst

/-- Stored balance cell: `float(t.balance) if t.balance else None` turns
both a missing and a zero balance into NULL. -/
def storedBalance : Option Int → Option Int
  | some b => if b = 0 then none else some b
  | none => none

/-- Build the parameter rows of the `executemany` insert of
`Database.add_transactions_with_file`; fails (the Python raises) when an
account name is unknown or a date is missing. -/
def prepareRows (db : DBState) (fid : Nat) : List Transaction → Option (List TxnRow)
  | [] => some []
  | t :: ts =>
    match lookupAccount db t.account, t.date, prepareRows db fid ts with
    | some aid, some d, some rest =>
      some ({ id := 0, account_id := aid, file_id := some fid, date := d,
              description := t.description, amount := t.amount,
              category := t.category, balance := storedBalance t.balance } :: rest)
    | _, _, _ => none

/-- Assign consecutive rowids starting at `base`. -/
def numberRows (base : Nat) : List TxnRow → List TxnRow
  | [] => []
  | r :: rs => { r with id := base } :: numberRows (base + 1) rs

/-- Model of `Database.add_transactions_with_file`. -/
def add_transactions_with_file (db : DBState) (ts : List Transaction)
    (fid : Nat) : Option DBState :=
  match prepareRows db fid ts with
  | none => none
  | some rows =>
    some { db with
      transactions := db.transactions ++ numberRows (freshTxnId db) rows }

/-- The persistence step of `FileHandler.process_file` (the Ledger
`insertBatch` contract): insert the `processed_files` row, then the whole
batch tied to its id, in one database transaction. -/
def insertBatch (db : DBState) (filename account_name : String)
    (ts : List Transaction) : Option DBState :=
  match lookupAccount db account_name with
  | none => none
  | some aid =>
    add_transactions_with_file
      { db with
        processed_files := db.processed_files ++ [⟨freshFileId db, filename, aid⟩] }
      ts (freshFileId db)

/-- Model of `Database.undo_file_import`: look up the `processed_files` row by
filename (the first match in rowid order), delete the transactions that
reference it and then the row itself. -/
def undo_file_import (db : DBState) (filename : String) : Bool × DBState :=
  match db.processed_files.find? (fun f => f.filename == filename) with
  | none => (false, db)
  | some f =>
    (true, { db with
      transactions := db.transactions.filter (fun t => t.file_id != some f.id),
      processed_files := db.processed_files.filter (fun g => g.id != f.id) })

/-- Test that `a` sorts strictly before `b` under `ORDER BY date DESC, id DESC`. -/
def laterKey (a b : TxnRow) : Bool :=
  b.date < a.date || (b.date == a.date && b.id < a.id)

/-- Row selected by `ORDER BY date DESC, id DESC LIMIT 1`. -/
def mostRecent : List TxnRow → Option TxnRow
  | [] => none
  | t :: ts =>
    match mostRecent ts with
    | none => some t
    | some m => if laterKey m t then some m else some t

/-- Rows of `transactions JOIN accounts ON t.account_id = a.id WHERE
a.name = ?`, in rowid order. -/
def accountTxns (db : DBState) (name : String) : List TxnRow :=
  db.transactions.filter
    (fun t => db.accounts.any (fun p => p.1 == t.account_id && p.2 == name))

/-- Model of `Database.get_account_balance`: balance of the newest row (NULL and
no-row both report zero). -/
def get_account_balance (db : DBState) (name : String) : Int :=
  match mostRecent (accountTxns db name) with
  | none => 0
  | some t => t.balance.getD 0

/-- Largest `date` of a group of rows (`MAX(date)`), `0` for the empty
group. -/
def maxDate (l : List TxnRow) : Nat := l.foldr (fun t a => max t.date a) 0

/-- Model of `Database.get_all_account_balances`: for every account row the query
yields the account rows whose date is the account maximum, in rowid
order, and the Python dict keeps the last row fetched. -/
def get_all_account_balances (db : DBState) : List (String × Int) :=
  db.accounts.map (fun p =>
    let rows := db.transactions.filter (fun t => t.account_id == p.1)
    (p.2,
      match (rows.filter (fun t => t.date == maxDate rows)).getLast? with
      | none => 0
      | some t => t.balance.getD 0))

/-- Observable steps of `FileHandler.process_file`, in program order. -/
inductive Ev
  | insertFile
  | insertTxns
  | moveFile
  | commit
deriving Repr, DecidableEq

/-- The watch directory and the processed directory, as name lists. -/
structure FileSys where
  watch : List String
  processed : List String
deriving Repr, DecidableEq

/-- Model of `FileHandler._move_to_processed`; the timestamp disambiguation suffix
is abstracted to a fixed marker. -/
def move_to_processed (fs : FileSys) (filename : String) : FileSys :=
  let target :=
    if fs.processed.contains filename then filename ++ "_ts" else filename
  { watch := fs.watch.filter (fun f => f != filename),
    processed := fs.processed ++ [target] }

/-- Model of `FileHandler._get_account_name`. -/
def get_account_name (account_type : String) : Option String :=
  if account_type = "pnc" then some "PNC Checking"
  else if account_type = "chase_sw" then some "Chase SW"
  else if account_type = "chase_star_wars" then some "Chase Star Wars"
  else if account_type = "capital_one" then some "Capital One"
  else none

/-- Result of one `process_file` run: the returned Boolean, the database
and filesystem afterwards, and the trace of observable steps executed
(a rolled-back write leaves `db` unchanged). -/
structure RunResult where
  ok : Bool
  db : DBState
  fs : FileSys
  events : List Ev
deriving Repr, DecidableEq

/-- Model of `FileHandler.process_file`, starting from the already-normalized batch
(the `_process_transactions` output): validate every row and abort on any
failure with a rollback and no relocation; otherwise insert the
`processed_files` record, insert the batch, move the source file, and
commit — in that program order. -/
def process_file (now : Nat) (filename account_type : String)
    (batch : List Transaction) (db : DBState) (fs : FileSys) : RunResult :=
  if batch.any (fun t => !(validate_transaction now t).1) then
    ⟨false, db, fs, []⟩
  else
    match get_account_name account_type with
    | none => ⟨false, db, fs, []⟩
    | some name =>
      match lookupAccount db name with
      | none => ⟨false, db, fs, []⟩
      | some aid =>
        let fid := freshFileId db
        let db1 := { db with
          processed_files := db.processed_files ++ [⟨fid, filename, aid⟩] }
        match add_transactions_with_file db1 batch fid with
        | none => ⟨false, db, fs, [.insertFile]⟩
        | some db2 =>
          ⟨true, db2, move_to_processed fs filename,
            [.insertFile, .insertTxns, .moveFile, .commit]⟩



/-- Referential soundness of the store: every transaction's `file_id`
points at an existing `processed_files` row (the schema's foreign-key
invariant). -/
def refsOk (db : DBState) : Bool :=
  db.transactions.all (fun t =>
    match t.file_id with
    | none => true
    | some fid => db.processed_files.any (fun pf => pf.id == fid))

/-! ### Concrete fixtures used by witnesses and counterexamples -/

/-- The four pre-seeded accounts. -/
def seedAccounts : List (Nat × String) :=
  [(1, "PNC Checking"), (2, "Chase SW"), (3, "Chase Star Wars"), (4, "Capital One")]

/-- A freshly initialized store. -/
def emptyDB : DBState := ⟨seedAccounts, [], []⟩

/-- A watch directory holding one statement file. -/
def fsW : FileSys := ⟨["stmt.csv"], []⟩

/-- A valid PNC transaction (all amounts in hundredths). -/
def txValid : Transaction :=
  ⟨some 20240105, "Coffee", -450, "Food", "PNC Checking", some 99550⟩

/-- A transaction whose description is blank after trimming. -/
def txBadDesc : Transaction :=
  ⟨some 20240105, "   ", -450, "Food", "PNC Checking", some 99550⟩

/-- Amount exactly 50000.00. -/
def txCeil : Transaction := ⟨some 20240105, "a", 5000000, "c", "Chase SW", none⟩

/-- Amount exactly 50000.01. -/
def txOver : Transaction := ⟨some 20240105, "a", 5000001, "c", "Chase SW", none⟩

/-- Amount zero. -/
def txZero : Transaction := ⟨some 20240105, "a", 0, "c", "Chase SW", none⟩

/-- Dated one day after the fixed current date 20240110. -/
def txTomorrow : Transaction := ⟨some 20240111, "a", 500, "c", "Chase SW", none⟩

/-- An account whose newest row stores no balance while an older row does. -/
def db10 : DBState :=
  ⟨seedAccounts, [],
   [⟨1, 2, none, 20240101, "old", 500, "c", some 10000⟩,
    ⟨2, 2, none, 20240105, "new", 500, "c", none⟩]⟩


/-- A store whose PNC account has one transaction. -/
def db3 : DBState :=
  ⟨seedAccounts, [], [⟨1, 1, none, 20240105, "newest", -450, "Food", some 99550⟩]⟩

/-- A transaction dated before the newest row of `db3`. -/
def txOlder : Transaction :=
  ⟨some 20240103, "older", 500, "c", "PNC Checking", some 11⟩

/-- State `db3` after inserting `txOlder` through the transaction insert. -/
def db3b : DBState :=
  ⟨seedAccounts, [],
   [⟨1, 1, none, 20240105, "newest", -450, "Food", some 99550⟩,
    ⟨2, 1, some 1, 20240103, "older", 500, "c", some 11⟩]⟩


/-- A store with one processed file and its transactions. -/
def db7 : DBState :=
  ⟨seedAccounts, [⟨1, "a.csv", 1⟩],
   [⟨1, 1, some 1, 20240105, "x", -450, "c", some 99550⟩,
    ⟨2, 1, none, 20240106, "y", 500, "c", none⟩]⟩

/-- A store that already processed a file named `a.csv` once. -/
def dbDup : DBState :=
  ⟨[(1, "PNC Checking")], [⟨1, "a.csv", 1⟩],
   [⟨1, 1, some 1, 20240105, "old", -500, "c", some 10000⟩]⟩

/-- A batch re-imported from a restored file also named `a.csv`. -/
def batch8 : List Transaction :=
  [⟨some 20240103, "new", -700, "c", "PNC Checking", some 5000⟩]

/-- A store with an account and nothing processed yet. -/
def db8 : DBState := ⟨[(1, "PNC Checking")], [], []⟩

/-- A one-row batch for `db8`. -/
def batchW8 : List Transaction :=
  [⟨some 20240102, "t", 500, "c", "PNC Checking", none⟩]

/-- State `db8` after `insertBatch db8 "w.csv" "PNC Checking" batchW8`. -/
def db8I : DBState :=
  ⟨[(1, "PNC Checking")], [⟨1, "w.csv", 1⟩],
   [⟨1, 1, some 1, 20240102, "t", 500, "c", none⟩]⟩


/-- A store exercising date ties (rows 1 and 2) and an account with a
NULL-balance newest row (row 3) plus empty accounts. -/
def db9 : DBState :=
  ⟨seedAccounts, [],
   [⟨1, 1, none, 20240105, "a", -450, "c", some 99550⟩,
    ⟨2, 1, none, 20240105, "b", 500, "c", some 12345⟩,
    ⟨3, 2, none, 20240101, "d", 500, "c", none⟩]⟩


/-! ### Helper lemmas -/

theorem le_maxId {x : Nat} {l : List Nat} (h : x ∈ l) : x ≤ maxId l := by
  induction l with
  | nil => cases h
  | cons a l ih =>
    rcases List.mem_cons.mp h with rfl | h
    · exact Nat.le_max_left _ _
    · exact Nat.le_trans (ih h) (Nat.le_max_right _ _)

theorem laterKey_iff {a b : TxnRow} :
    laterKey a b = true ↔ b.date < a.date ∨ (b.date = a.date ∧ b.id < a.id) := by
  simp [laterKey]

theorem mostRecent_cons (t : TxnRow) (ts : List TxnRow) :
    mostRecent (t :: ts) =
      match mostRecent ts with
      | none => some t
      | some m => if laterKey m t then some m else some t := rfl

theorem maxDate_cons (t : TxnRow) (ts : List TxnRow) :
    maxDate (t :: ts) = max t.date (maxDate ts) := rfl

theorem mostRecent_eq_none_iff {l : List TxnRow} :
    mostRecent l = none ↔ l = [] := by
  cases l with
  | nil => simp [mostRecent]
  | cons t ts =>
    rw [mostRecent_cons]
    cases h : mostRecent ts with
    | none => simp
    | some m =>
      dsimp only
      by_cases hk : laterKey m t = true
      · rw [if_pos hk]; simp
      · rw [if_neg hk]; simp

theorem mostRecent_mem {l : List TxnRow} :
    ∀ {m : TxnRow}, mostRecent l = some m → m ∈ l := by
  induction l with
  | nil => intro m h; simp [mostRecent] at h
  | cons t ts ih =>
    intro m h
    rw [mostRecent_cons] at h
    cases hts : mostRecent ts with
    | none =>
      rw [hts] at h
      dsimp only at h
      cases Option.some.inj h
      exact List.mem_cons_self t ts
    | some m' =>
      rw [hts] at h
      dsimp only at h
      by_cases hk : laterKey m' t = true
      · rw [if_pos hk] at h
        cases Option.some.inj h
        exact List.mem_cons_of_mem _ (ih hts)
      · rw [if_neg hk] at h
        cases Option.some.inj h
        exact List.mem_cons_self t ts

theorem mostRecent_le {l : List TxnRow} :
    ∀ {m : TxnRow}, mostRecent l = some m →
      ∀ u ∈ l, u.date < m.date ∨ (u.date = m.date ∧ u.id ≤ m.id) := by
  induction l with
  | nil => intro m h; simp [mostRecent] at h
  | cons t ts ih =>
    intro m h
    rw [mostRecent_cons] at h
    cases hts : mostRecent ts with
    | none =>
      rw [hts] at h
      dsimp only at h
      cases Option.some.inj h
      have hnil : ts = [] := mostRecent_eq_none_iff.mp hts
      subst hnil
      intro u hu
      rcases List.mem_cons.mp hu with rfl | hu
      · exact Or.inr ⟨rfl, Nat.le_refl _⟩
      · cases hu
    | some m' =>
      rw [hts] at h
      dsimp only at h
      by_cases hk : laterKey m' t = true
      · rw [if_pos hk] at h
        cases Option.some.inj h
        intro u hu
        rcases List.mem_cons.mp hu with rfl | hu
        · rcases laterKey_iff.mp hk with h1 | ⟨h1, h2⟩
          · exact Or.inl h1
          · exact Or.inr ⟨h1, Nat.le_of_lt h2⟩
        · exact ih hts u hu
      · rw [if_neg hk] at h
        cases Option.some.inj h
        intro u hu
        rcases List.mem_cons.mp hu with rfl | hu
        · exact Or.inr ⟨rfl, Nat.le_refl _⟩
        · have hum := ih hts u hu
          have hk2 : ¬(t.date < m'.date ∨ (t.date = m'.date ∧ t.id < m'.id)) :=
            fun hc => hk (laterKey_iff.mpr hc)
          push_neg at hk2
          rcases hum with h1 | ⟨h1, h2⟩
          · exact Or.inl (Nat.lt_of_lt_of_le h1 hk2.1)
          · rcases Nat.lt_or_eq_of_le hk2.1 with h3 | h3
            · exact Or.inl (by rw [h1]; exact h3)
            · exact Or.inr ⟨h1.trans h3, Nat.le_trans h2 (hk2.2 h3.symm)⟩

theorem mostRecent_eq_of_max {l : List TxnRow} {m : TxnRow} (hm : m ∈ l)
    (hmax : ∀ u ∈ l, u.date < m.date ∨ (u.date = m.date ∧ u.id ≤ m.id))
    (hids : l.Pairwise (fun a b => a.id ≠ b.id)) : mostRecent l = some m := by
  induction l with
  | nil => cases hm
  | cons t ts ih =>
    rw [mostRecent_cons]
    rcases List.mem_cons.mp hm with rfl | hm'
    · cases hts : mostRecent ts with
      | none => rfl
      | some m' =>
        have hm'le := hmax m' (List.mem_cons_of_mem _ (mostRecent_mem hts))
        have hkf : ¬ laterKey m' m = true := by
          intro hk
          rcases laterKey_iff.mp hk with h1 | ⟨h1, h2⟩
          · rcases hm'le with h3 | ⟨h3, _⟩
            · exact Nat.lt_asymm h1 h3
            · exact Nat.lt_irrefl _ (h3 ▸ h1)
          · rcases hm'le with h3 | ⟨h3, h4⟩
            · exact Nat.lt_irrefl _ (h1 ▸ h3)
            · exact Nat.lt_irrefl _ (Nat.lt_of_lt_of_le h2 h4)
        dsimp only
        rw [if_neg hkf]
    · have hts := ih hm' (fun u hu => hmax u (List.mem_cons_of_mem _ hu))
        (List.Pairwise.sublist (List.sublist_cons_self t ts) hids)
      rw [hts]
      dsimp only
      have hne : t.id ≠ m.id := (List.pairwise_cons.mp hids).1 m hm'
      have hkt : laterKey m t = true := by
        apply laterKey_iff.mpr
        rcases hmax t (List.mem_cons_self t ts) with h1 | ⟨h1, h2⟩
        · exact Or.inl h1
        · exact Or.inr ⟨h1, Nat.lt_of_le_of_ne h2 hne⟩
      rw [if_pos hkt]

theorem maxDate_ub {l : List TxnRow} {u : TxnRow} (hu : u ∈ l) :
    u.date ≤ maxDate l := by
  induction l with
  | nil => cases hu
  | cons a l ih =>
    rw [maxDate_cons]
    rcases List.mem_cons.mp hu with rfl | hu
    · exact Nat.le_max_left _ _
    · exact Nat.le_trans (ih hu) (Nat.le_max_right _ _)

theorem mostRecent_date {l : List TxnRow} :
    ∀ {m : TxnRow}, mostRecent l = some m → m.date = maxDate l := by
  induction l with
  | nil => intro m h; simp [mostRecent] at h
  | cons t ts ih =>
    intro m h
    rw [mostRecent_cons] at h
    rw [maxDate_cons]
    cases hts : mostRecent ts with
    | none =>
      rw [hts] at h
      dsimp only at h
      cases Option.some.inj h
      rw [mostRecent_eq_none_iff.mp hts]
      simp [maxDate]
    | some m' =>
      rw [hts] at h
      dsimp only at h
      have hd := ih hts
      by_cases hk : laterKey m' t = true
      · rw [if_pos hk] at h
        cases Option.some.inj h
        have h1 : t.date ≤ m.date := by
          rcases laterKey_iff.mp hk with h1 | ⟨h1, _⟩
          · exact Nat.le_of_lt h1
          · exact Nat.le_of_eq h1
        rw [Nat.max_eq_right (hd ▸ h1), hd]
      · rw [if_neg hk] at h
        cases Option.some.inj h
        have h1 : m'.date ≤ t.date := by
          by_contra hc
          exact hk (laterKey_iff.mpr (Or.inl (Nat.lt_of_not_le hc)))
        rw [Nat.max_eq_left (hd ▸ h1)]

theorem mostRecent_eq_lastLatest {l : List TxnRow}
    (hs : l.Pairwise (fun a b => a.id < b.id)) :
    mostRecent l = (l.filter (fun t => t.date == maxDate l)).getLast? := by
  induction l with
  | nil => rfl
  | cons t ts ih =>
    have hs' : ts.Pairwise (fun a b => a.id < b.id) := (List.pairwise_cons.mp hs).2
    have hts' := ih hs'
    rw [mostRecent_cons]
    cases hts : mostRecent ts with
    | none =>
      have hnil : ts = [] := mostRecent_eq_none_iff.mp hts
      subst hnil
      dsimp only
      simp [maxDate_cons, maxDate, List.filter]
    | some m =>
      rw [hts] at hts'
      dsimp only
      have hmd : m.date = maxDate ts := mostRecent_date hts
      have hmem : m ∈ ts := mostRecent_mem hts
      rw [maxDate_cons]
      rcases Nat.lt_trichotomy t.date (maxDate ts) with hlt | heq | hgt
      · rw [Nat.max_eq_right (Nat.le_of_lt hlt)]
        have hk : laterKey m t = true :=
          laterKey_iff.mpr (Or.inl (by rw [hmd]; exact hlt))
        rw [if_pos hk, List.filter_cons]
        have hne : (t.date == maxDate ts) = false := by
          simp [Nat.ne_of_lt hlt]
        rw [hne]
        simp only [Bool.false_eq_true, if_false]
        exact hts'
      · rw [Nat.max_eq_right (Nat.le_of_eq heq)]
        have hk : laterKey m t = true := by
          apply laterKey_iff.mpr
          refine Or.inr ⟨by rw [heq, hmd], ?_⟩
          exact (List.pairwise_cons.mp hs).1 m hmem
        rw [if_pos hk, List.filter_cons]
        have hteq : (t.date == maxDate ts) = true := by simp [heq]
        rw [hteq]
        simp only [if_true]
        have hmf : m ∈ ts.filter (fun u => u.date == maxDate ts) :=
          List.mem_filter.mpr ⟨hmem, by simp [hmd]⟩
        cases hft : ts.filter (fun u => u.date == maxDate ts) with
        | nil => rw [hft] at hmf; cases hmf
        | cons b bs =>
          rw [List.getLast?_cons_cons]
          rw [hft] at hts'
          exact hts'
      · rw [Nat.max_eq_left (Nat.le_of_lt hgt)]
        have hk : laterKey m t = false := by
          rw [Bool.eq_false_iff]
          intro hc
          rcases laterKey_iff.mp hc with h1 | ⟨h1, _⟩
          · exact Nat.lt_asymm h1 (by rw [hmd]; exact hgt)
          · rw [hmd] at h1; exact Nat.lt_irrefl _ (h1 ▸ hgt)
        rw [if_neg (by simp [hk]), List.filter_cons]
        have hteq : (t.date == t.date) = true := by simp
        rw [hteq]
        simp only [if_true]
        have hfe : ts.filter (fun u => u.date == t.date) = [] := by
          apply List.filter_eq_nil_iff.mpr
          intro u hu
          have := maxDate_ub hu
          simp only [beq_iff_eq]
          exact Nat.ne_of_lt (Nat.lt_of_le_of_lt this hgt)
        rw [hfe]
        rfl

theorem find?_append_false {α : Type} {p : α → Bool} {l1 : List α}
    (h : ∀ x ∈ l1, p x = false) (l2 : List α) :
    (l1 ++ l2).find? p = l2.find? p := by
  induction l1 with
  | nil => rfl
  | cons a l ih =>
    rw [List.cons_append, List.find?_cons]
    rw [h a (List.mem_cons_self a l)]
    exact ih (fun x hx => h x (List.mem_cons_of_mem a hx))

theorem prepareRows_sound {db : DBState} {fid : Nat} :
    ∀ {ts : List Transaction} {rows : List TxnRow},
      prepareRows db fid ts = some rows → ∀ r ∈ rows, r.file_id = some fid := by
  intro ts
  induction ts with
  | nil =>
    intro rows h
    cases Option.some.inj h
    intro r hr
    cases hr
  | cons t ts ih =>
    intro rows h
    rw [prepareRows] at h
    cases hA : lookupAccount db t.account with
    | none => rw [hA] at h; cases h
    | some aid =>
      rw [hA] at h
      cases hd : t.date with
      | none => rw [hd] at h; cases h
      | some d =>
        rw [hd] at h
        cases hrest : prepareRows db fid ts with
        | none => rw [hrest] at h; cases h
        | some rest =>
          rw [hrest] at h
          dsimp only at h
          cases Option.some.inj h
          intro r hr
          rcases List.mem_cons.mp hr with rfl | hr
          · rfl
          · exact ih hrest r hr

theorem mem_numberRows_file_id {rows : List TxnRow} {fid : Nat}
    (h : ∀ r ∈ rows, r.file_id = some fid) :
    ∀ {base : Nat}, ∀ r ∈ numberRows base rows, r.file_id = some fid := by
  induction rows with
  | nil => intro base r hr; cases hr
  | cons a rows ih =>
    intro base r hr
    rw [numberRows] at hr
    rcases List.mem_cons.mp hr with rfl | hr
    · exact h a (List.mem_cons_self a rows)
    · exact ih (fun s hs => h s (List.mem_cons_of_mem a hs)) r hr

theorem add_txns_decomp {db : DBState} {ts : List Transaction} {fid : Nat}
    {db2 : DBState} (h : add_transactions_with_file db ts fid = some db2) :
    db2.accounts = db.accounts ∧ db2.processed_files = db.processed_files ∧
      ∃ rows, db2.transactions = db.transactions ++ rows ∧
        ∀ r ∈ rows, r.file_id = some fid := by
  rw [add_transactions_with_file] at h
  cases hp : prepareRows db fid ts with
  | none => rw [hp] at h; cases h
  | some rows =>
    rw [hp] at h
    dsimp only at h
    cases Option.some.inj h
    refine ⟨rfl, rfl, numberRows (freshTxnId db) rows, rfl, ?_⟩
    exact mem_numberRows_file_id (prepareRows_sound hp)

theorem add_single_eq {db : DBState} {t : Transaction} {fid : Nat}
    {db2 : DBState} (h : add_transactions_with_file db [t] fid = some db2) :
    ∃ aid d, lookupAccount db t.account = some aid ∧ t.date = some d ∧
      db2 = { db with transactions := db.transactions ++
        [{ id := freshTxnId db, account_id := aid, file_id := some fid,
           date := d, description := t.description, amount := t.amount,
           category := t.category, balance := storedBalance t.balance }] } := by
  rw [add_transactions_with_file] at h
  cases hA : lookupAccount db t.account with
  | none => rw [prepareRows, hA] at h; cases h
  | some aid =>
    cases hd : t.date with
    | none => rw [prepareRows, hA, hd] at h; cases h
    | some d =>
      rw [prepareRows, hA, hd, prepareRows] at h
      dsimp only at h
      cases Option.some.inj h
      exact ⟨aid, d, rfl, rfl, by rw [numberRows, numberRows]⟩

/-! ### Claims -/

/-- C1: if any transaction of the normalized batch fails
`validate_transaction`, then `process_file` returns failure, the store is
left exactly as it was (no `ProcessedFile` row, no `Transaction` rows),
and the source file stays in the watch directory (no move event at all). -/
theorem c1_validation_failure_is_sandboxed (now : Nat)
    (filename account_type : String) (batch : List Transaction)
    (db : DBState) (fs : FileSys) (t : Transaction) (ht : t ∈ batch)
    (hv : (validate_transaction now t).1 = false) :
    process_file now filename account_type batch db fs = ⟨false, db, fs, []⟩ := by
  have hany : batch.any (fun t => !(validate_transaction now t).1) = true :=
    List.any_eq_true.mpr ⟨t, ht, by rw [hv]; rfl⟩
  rw [process_file, if_pos hany]

/-- C1 witness: a one-row batch with a blank description is rejected and
leaves database and directories untouched. -/
theorem c1_witness :
    process_file 20240110 "stmt.csv" "pnc" [txBadDesc] emptyDB fsW =
      ⟨false, emptyDB, fsW, []⟩ :=
  c1_validation_failure_is_sandboxed 20240110 "stmt.csv" "pnc" [txBadDesc]
    emptyDB fsW txBadDesc (by decide) (by decide)

/-- C2 counterexample: a concrete successful run moves the source file
strictly before the commit, refuting the claim that the move never
precedes the successful commit. -/
theorem c2_counterexample :
    (process_file 20240110 "stmt.csv" "pnc" [txValid] emptyDB fsW).ok = true ∧
    (process_file 20240110 "stmt.csv" "pnc" [txValid] emptyDB fsW).events =
      [Ev.insertFile, Ev.insertTxns, Ev.moveFile, Ev.commit] ∧
    List.indexOf Ev.moveFile
        (process_file 20240110 "stmt.csv" "pnc" [txValid] emptyDB fsW).events <
      List.indexOf Ev.commit
        (process_file 20240110 "stmt.csv" "pnc" [txValid] emptyDB fsW).events := by
  decide

/-- C2 amended: the file is relocated only on runs where validation and
both inserts succeeded, and on every such run the order is insert file
record, insert transactions, move file, commit — so the move immediately
precedes the commit instead of following it; a failed run never moves the
file. -/
theorem c2_move_only_after_inserts (now : Nat)
    (filename account_type : String) (batch : List Transaction)
    (db : DBState) (fs : FileSys) :
    ((process_file now filename account_type batch db fs).ok = true →
      (process_file now filename account_type batch db fs).events =
        [Ev.insertFile, Ev.insertTxns, Ev.moveFile, Ev.commit]) ∧
    ((process_file now filename account_type batch db fs).ok = false →
      Ev.moveFile ∉ (process_file now filename account_type batch db fs).events) := by
  rw [process_file]
  by_cases hany : (batch.any fun t => !(validate_transaction now t).1) = true
  · rw [if_pos hany]
    exact ⟨fun h => by simp at h, fun _ => by simp⟩
  · rw [if_neg hany]
    cases hn : get_account_name account_type with
    | none => exact ⟨fun h => by simp at h, fun _ => by simp⟩
    | some name =>
      dsimp only
      cases hA : lookupAccount db name with
      | none => exact ⟨fun h => by simp at h, fun _ => by simp⟩
      | some aid =>
        dsimp only
        cases hadd : add_transactions_with_file
            { db with processed_files :=
                db.processed_files ++ [⟨freshFileId db, filename, aid⟩] }
            batch (freshFileId db) with
        | none => exact ⟨fun h => by simp at h, fun _ => by simp⟩
        | some db2 => exact ⟨fun _ => rfl, fun h => by simp at h⟩

/-- C2 amended witness: the successful run of the counterexample state
indeed produces the insert-insert-move-commit order. -/
theorem c2_amended_witness :
    (process_file 20240110 "stmt.csv" "pnc" [txValid] emptyDB fsW).events =
      [Ev.insertFile, Ev.insertTxns, Ev.moveFile, Ev.commit] :=
  (c2_move_only_after_inserts 20240110 "stmt.csv" "pnc" [txValid] emptyDB
    fsW).1 (by decide)

/-- C4: the validator passes exactly when description and category are
non-blank after trimming, the amount is non-zero, the date is present and
not after the current date, a balance is present for the PNC Checking
account, and the magnitude is at most 50000.00; the rules are applied in
the specified order, the first failing rule's message is returned; and
the boundary cases hold (50000.00 passes, 50000.01 fails, zero fails, a
date of tomorrow fails). -/
theorem c4_validator_rules (now : Nat) (t : Transaction) :
    ((validate_transaction now t).1 = true ↔
      (trimStr t.description ≠ "" ∧ trimStr t.category ≠ "" ∧ t.amount ≠ 0 ∧
       t.date ≠ none ∧ (t.account = "PNC Checking" → t.balance ≠ none) ∧
       t.date.getD 0 ≤ now ∧ |t.amount| ≤ 5000000)) ∧
    (validate_transaction now t =
      match specFirstFailure now t with
      | some msg => (false, msg)
      | none => (true, "")) ∧
    (validate_transaction 20240110 txCeil).1 = true ∧
    (validate_transaction 20240110 txOver).1 = false ∧
    (validate_transaction 20240110 txZero).1 = false ∧
    (validate_transaction 20240110 txTomorrow).1 = false := by
  refine ⟨?_, ?_, by decide, by decide, by decide, by decide⟩
  · rw [validate_transaction]
    split_ifs with h1 h2 h3 h4 h5 h6 h7 <;>
      simp_all [Nat.not_lt, Int.not_lt]
  · rw [validate_transaction, specFirstFailure, specRules]
    by_cases h1 : trimStr t.description = ""
    · simp [List.find?_cons, h1]
    · by_cases h2 : trimStr t.category = ""
      · simp [List.find?_cons, h1, h2]
      · by_cases h3 : t.amount = 0
        · simp [List.find?_cons, h1, h2, h3]
        · by_cases h4 : t.date = none
          · simp [List.find?_cons, h1, h2, h3, h4, Option.isNone_iff_eq_none]
          · by_cases h5 : t.account = "PNC Checking" ∧ t.balance = none
            · simp [List.find?_cons, h1, h2, h3, h4, h5,
                Option.isNone_iff_eq_none]
            · by_cases h6 : now < t.date.getD 0
              · simp [List.find?_cons, h1, h2, h3, h4, h5, h6,
                  Option.isNone_iff_eq_none]
              · by_cases h7 : (5000000 : Int) < |t.amount|
                · simp [List.find?_cons, h1, h2, h3, h4, h5, h6, h7,
                    Option.isNone_iff_eq_none]
                · simp [List.find?_cons, h1, h2, h3, h4, h5, h6, h7,
                    Option.isNone_iff_eq_none]

/-- C4 witness: a fully valid transaction passes all the claimed checks. -/
theorem c4_witness :
    (validate_transaction 20240110 txValid).1 = true :=
  (c4_validator_rules 20240110 txValid).1.mpr
    ⟨by decide, by decide, by decide, by decide, by decide, by decide, by decide⟩

/-- C5: PNC normalization strips the currency symbol and thousands
separators before parsing; a withdrawal cell holding a value (anything
but the null sentinel) yields amount = minus the parsed withdrawal,
while a null withdrawal cell yields amount = plus the parsed deposit;
null, empty and blank cells parse to absent, never to the number zero. -/
theorem c5_pnc_sign_convention (s : String) (q : Int) :
    (cleanCell s ≠ "0" → parseDecimal (cleanCell s) = some q →
      ∀ dep, pncAmount (some s) dep = some (-q)) ∧
    (cleanCell s ≠ "0" → parseDecimal (cleanCell s) = some q →
      pncAmount none (some s) = some q) ∧
    clean_currency none = none ∧
    clean_currency (some "") = none ∧
    clean_currency (some "   ") = none ∧
    pncAmount (some "$1,234.50") none = some (-123450) ∧
    pncAmount none (some "$1,234.50") = some 123450 := by
  refine ⟨?_, ?_, rfl, rfl, by decide, by decide, by decide⟩
  · intro hne hp dep
    simp only [pncAmount]
    rw [if_pos hne, hp]
    rfl
  · intro hne hp
    simp only [pncAmount]
    rw [if_neg (by simp), if_pos hne, hp]

/-- C5 witness: a concrete withdrawal-only row and a concrete
deposit-only row follow the sign rule. -/
theorem c5_witness :
    pncAmount (some "4.50") none = some (-450) ∧
    pncAmount none (some "4.50") = some 450 :=
  ⟨(c5_pnc_sign_convention "4.50" 450).1 (by decide) (by decide) none,
   (c5_pnc_sign_convention "4.50" 450).2.1 (by decide) (by decide)⟩

/-- C6: normalizing the scenario row yields amount -25.00 and description
"Shop - Gift"; in general the parsed amount is negated exactly when the
type tag lower-cases to one of the outflow tags sale/payment, and a
non-empty trimmed memo different from the trimmed description is appended
to it after the " - " delimiter. -/
theorem c6_chase_normalization (acc : String) (r : ChaseRow)
    (t : Transaction) (a : Int) :
    (processChaseRow "Chase SW"
        ⟨"01/15/2024", "01/16/2024", "Shop", "Shopping", "Sale", "$25.00",
          "Gift"⟩ =
      some ⟨some 20240115, "Shop - Gift", -2500, "Shopping", "Chase SW",
        none⟩) ∧
    (processChaseRow acc r = some t →
      parseDecimal (cleanCell r.amount) = some a →
      (t.amount =
        if lowerStr r.type = "sale" ∨ lowerStr r.type = "payment" then -a
        else a) ∧
      t.description =
        (if trimStr r.memo ≠ "" ∧ trimStr r.memo ≠ trimStr r.description
         then trimStr r.description ++ " - " ++ trimStr r.memo
         else trimStr r.description)) := by
  refine ⟨by decide, ?_⟩
  intro h hp
  rw [processChaseRow, hp] at h
  cases hd : parse_date r.transaction_date with
  | none => rw [hd] at h; cases h
  | some d0 =>
    rw [hd] at h
    dsimp only at h
    cases Option.some.inj h
    exact ⟨rfl, rfl⟩

/-- C6 witness: the general sign/memo rule applied to the scenario row. -/
theorem c6_witness :
    (⟨some 20240115, "Shop - Gift", -2500, "Shopping", "Chase SW", none⟩ :
        Transaction).amount =
      (if lowerStr "Sale" = "sale" ∨ lowerStr "Sale" = "payment"
       then -(2500 : Int) else 2500) :=
  ((c6_chase_normalization "Chase SW"
      ⟨"01/15/2024", "01/16/2024", "Shop", "Shopping", "Sale", "$25.00",
        "Gift"⟩
      ⟨some 20240115, "Shop - Gift", -2500, "Shopping", "Chase SW", none⟩
      2500).2 (by decide) (by decide)).1

/-- C10: when the newest row of an account stores no balance — as every
row produced by the Chase and Capital One normalizers does — the account
reports a zero balance, even if older rows of the same account carry
non-null balances: there is no fallback to the latest non-null balance. -/
theorem c10_null_newest_balance_reports_zero (db : DBState) (name : String)
    (m u : TxnRow) (b : Int)
    (hm : mostRecent (accountTxns db name) = some m)
    (hb : m.balance = none)
    (_hu : u ∈ accountTxns db name) (_hub : u.balance = some b) :
    get_account_balance db name = 0 ∧
    (∀ acc r t, processChaseRow acc r = some t → t.balance = none) ∧
    (∀ r t, processCapitalOneRow r = some t → t.balance = none) := by
  refine ⟨?_, ?_, ?_⟩
  · rw [get_account_balance, hm]
    dsimp only
    rw [hb]
    rfl
  · intro acc r t h
    rw [processChaseRow] at h
    cases h1 : parseDecimal (cleanCell r.amount) with
    | none => rw [h1] at h; cases h
    | some a =>
      rw [h1] at h
      cases h2 : parse_date r.transaction_date with
      | none => rw [h2] at h; cases h
      | some d =>
        rw [h2] at h
        dsimp only at h
        cases Option.some.inj h
        rfl
  · intro r t h
    rw [processCapitalOneRow] at h
    cases h1 : parse_date r.transaction_date with
    | none => rw [h1] at h; cases h
    | some d =>
      rw [h1] at h
      cases h2 : capOneAmount r.debit r.credit with
      | none => rw [h2] at h; cases h
      | some a =>
        rw [h2] at h
        dsimp only at h
        cases Option.some.inj h
        rfl

/-- C10 witness: newest row of Chase SW has no stored balance, an older
row stores 100.00, and the reported balance is zero. -/
theorem c10_witness : get_account_balance db10 "Chase SW" = 0 :=
  (c10_null_newest_balance_reports_zero db10 "Chase SW"
    ⟨2, 2, none, 20240105, "new", 500, "c", none⟩
    ⟨1, 2, none, 20240101, "old", 500, "c", some 10000⟩
    10000 (by decide) (by decide) (by decide) (by decide)).1

theorem get_balance_append_older {db : DBState} {name : String}
    {row : TxnRow} {m : TxnRow}
    (hids : db.transactions.Pairwise (fun a b => a.id ≠ b.id))
    (hfresh : ∀ u ∈ db.transactions, u.id ≠ row.id)
    (hm : mostRecent (accountTxns db name) = some m)
    (hdate : row.date < m.date) :
    get_account_balance
        { db with transactions := db.transactions ++ [row] } name =
      get_account_balance db name := by
  have hacc : accountTxns { db with transactions := db.transactions ++ [row] } name
      = accountTxns db name ++
        [row].filter
          (fun t => db.accounts.any (fun p => p.1 == t.account_id && p.2 == name)) := by
    rw [accountTxns, accountTxns]
    exact List.filter_append _ _
  rw [get_account_balance, get_account_balance, hacc]
  by_cases hp : (db.accounts.any
      (fun p => p.1 == row.account_id && p.2 == name)) = true
  · have hfil : [row].filter
        (fun t => db.accounts.any (fun p => p.1 == t.account_id && p.2 == name))
        = [row] := by
      simp [List.filter, hp]
    rw [hfil]
    have hmm : mostRecent (accountTxns db name ++ [row]) = some m := by
      apply mostRecent_eq_of_max
      · exact List.mem_append_left _ (mostRecent_mem hm)
      · intro u hu
        rcases List.mem_append.mp hu with hu | hu
        · exact mostRecent_le hm u hu
        · rw [List.mem_singleton.mp hu]
          exact Or.inl hdate
      · rw [List.pairwise_append]
        refine ⟨List.Pairwise.sublist (List.filter_sublist _) hids, ?_, ?_⟩
        · exact List.pairwise_singleton _ _
        · intro a ha b hb
          rw [List.mem_singleton.mp hb]
          exact hfresh a (List.mem_of_mem_filter ha)
    rw [hmm, hm]
  · have hfil : [row].filter
        (fun t => db.accounts.any (fun p => p.1 == t.account_id && p.2 == name))
        = [] := by
      simp only [List.filter]
      rw [Bool.eq_false_iff.mpr hp]
    rw [hfil, List.append_nil]

/-- C3: the account balance is the stored balance of the newest
transaction — newest by date, ties broken by the larger rowid — zero when
the account has no transactions; it is not a sum, so inserting a
transaction dated strictly earlier than the current newest one leaves the
reported balance unchanged. -/
theorem c3_balance_is_latest_not_sum (db : DBState) (name : String)
    (hids : db.transactions.Pairwise (fun a b => a.id ≠ b.id)) :
    (accountTxns db name = [] → get_account_balance db name = 0) ∧
    (∀ m, mostRecent (accountTxns db name) = some m →
      m ∈ accountTxns db name ∧
      (∀ u ∈ accountTxns db name,
        u.date < m.date ∨ (u.date = m.date ∧ u.id ≤ m.id)) ∧
      ∀ b, m.balance = some b → get_account_balance db name = b) ∧
    (∀ (t : Transaction) (fid : Nat) (m : TxnRow) (db2 : DBState) (d : Nat),
      mostRecent (accountTxns db name) = some m →
      t.date = some d → d < m.date →
      add_transactions_with_file db [t] fid = some db2 →
      get_account_balance db2 name = get_account_balance db name) := by
  refine ⟨?_, ?_, ?_⟩
  · intro h
    rw [get_account_balance, h]
    rfl
  · intro m hm
    refine ⟨mostRecent_mem hm, mostRecent_le hm, ?_⟩
    intro b hb
    rw [get_account_balance, hm]
    dsimp only
    rw [hb]
    rfl
  · intro t fid m db2 d hm htd hlt hadd
    obtain ⟨aid, d1, hA, hd1, hdb2⟩ := add_single_eq hadd
    rw [htd] at hd1
    cases Option.some.inj hd1
    subst hdb2
    apply get_balance_append_older hids ?_ hm hlt
    intro u hu
    have h1 : u.id ≤ maxId (db.transactions.map TxnRow.id) :=
      le_maxId (List.mem_map_of_mem TxnRow.id hu)
    show u.id ≠ freshTxnId db
    rw [freshTxnId]
    omega

/-- C3 witness: the PNC balance is the newest row's stored balance, and
inserting an older-dated transaction does not change it. -/
theorem c3_witness :
    get_account_balance db3 "PNC Checking" = 99550 ∧
    get_account_balance db3b "PNC Checking" =
      get_account_balance db3 "PNC Checking" :=
  ⟨((c3_balance_is_latest_not_sum db3 "PNC Checking" (by decide)).2.1
      ⟨1, 1, none, 20240105, "newest", -450, "Food", some 99550⟩
      (by decide)).2.2 99550 (by decide),
   (c3_balance_is_latest_not_sum db3 "PNC Checking" (by decide)).2.2
      txOlder 1 ⟨1, 1, none, 20240105, "newest", -450, "Food", some 99550⟩
      db3b 20240103 (by decide) (by decide) (by decide) (by decide)⟩

/-- C7: undoing a filename with no `ProcessedFile` row returns false and
leaves the store unchanged; otherwise the looked-up row is removed
together with exactly the transactions referencing its identifier, and
true is returned. -/
theorem c7_undo_file_import (db : DBState) (filename : String) :
    ((∀ f ∈ db.processed_files, f.filename ≠ filename) →
      undo_file_import db filename = (false, db)) ∧
    (∀ f0, db.processed_files.find? (fun f => f.filename == filename) = some f0 →
      f0 ∈ db.processed_files ∧ f0.filename = filename ∧
      (undo_file_import db filename).1 = true ∧
      (∀ u, u ∈ (undo_file_import db filename).2.transactions ↔
        (u ∈ db.transactions ∧ u.file_id ≠ some f0.id)) ∧
      (∀ g, g ∈ (undo_file_import db filename).2.processed_files ↔
        (g ∈ db.processed_files ∧ g.id ≠ f0.id)) ∧
      (undo_file_import db filename).2.accounts = db.accounts) := by
  constructor
  · intro h
    have hf : db.processed_files.find? (fun f => f.filename == filename) = none := by
      apply List.find?_eq_none.mpr
      intro f hf
      simp [h f hf]
    rw [undo_file_import, hf]
  · intro f0 hf0
    rw [undo_file_import, hf0]
    dsimp only
    refine ⟨List.mem_of_find?_eq_some hf0,
      by simpa using List.find?_some hf0, rfl, ?_, ?_, rfl⟩
    · intro u
      rw [List.mem_filter]
      simp [bne_iff_ne]
    · intro g
      rw [List.mem_filter]
      simp [bne_iff_ne]

/-- C7 witness: an unknown filename is a no-op returning false; a known
one returns true. -/
theorem c7_witness :
    undo_file_import db7 "zzz.csv" = (false, db7) ∧
    (undo_file_import db7 "a.csv").1 = true :=
  ⟨(c7_undo_file_import db7 "zzz.csv").1 (by decide),
   ((c7_undo_file_import db7 "a.csv").2 ⟨1, "a.csv", 1⟩ (by decide)).2.2.1⟩

/-- C8 counterexample: if a `ProcessedFile` row with the same filename
already exists (a restored file imported again), undo after the insert
removes the older import instead of the new one, so the observable state
differs from the state before the insert. -/
theorem c8_counterexample :
    (insertBatch dbDup "a.csv" "PNC Checking" batch8).isSome = true ∧
    get_account_balance
        (undo_file_import
          ((insertBatch dbDup "a.csv" "PNC Checking" batch8).getD dbDup)
          "a.csv").2 "PNC Checking" ≠
      get_account_balance dbDup "PNC Checking" := by
  decide

/-- C8 amended: provided no already-processed file bears the same
filename and every stored transaction references an existing file row,
inserting a batch tied to a fresh file record and then undoing that
filename restores the store exactly — in particular every account's
reported balance and the transaction count are unchanged. -/
theorem c8_insert_then_undo_roundtrip (db : DBState)
    (filename account_name : String) (batch : List Transaction)
    (dbI : DBState)
    (hfresh : ∀ f ∈ db.processed_files, f.filename ≠ filename)
    (href : refsOk db = true)
    (hins : insertBatch db filename account_name batch = some dbI) :
    undo_file_import dbI filename = (true, db) ∧
    (∀ a, get_account_balance (undo_file_import dbI filename).2 a =
      get_account_balance db a) ∧
    (undo_file_import dbI filename).2.transactions.length =
      db.transactions.length := by
  have hmain : undo_file_import dbI filename = (true, db) := by
    rw [insertBatch] at hins
    cases hA : lookupAccount db account_name with
    | none => rw [hA] at hins; cases hins
    | some aid =>
      rw [hA] at hins
      dsimp only at hins
      obtain ⟨hacc, hpf, rows, htr, hrows⟩ := add_txns_decomp hins
      rw [undo_file_import]
      have hfind : dbI.processed_files.find? (fun f => f.filename == filename)
          = some ⟨freshFileId db, filename, aid⟩ := by
        rw [hpf]
        rw [find?_append_false]
        · simp [List.find?_cons]
        · intro x hx
          simp [hfresh x hx]
      rw [hfind]
      dsimp only
      have htrans : dbI.transactions.filter
          (fun t => t.file_id != some (freshFileId db)) = db.transactions := by
        rw [htr, List.filter_append]
        have h1 : db.transactions.filter
            (fun t => t.file_id != some (freshFileId db)) = db.transactions := by
          apply List.filter_eq_self.mpr
          intro u hu
          simp only [bne_iff_ne, ne_eq, decide_eq_true_eq]
          intro hc
          have hball := List.all_eq_true.mp href u hu
          rw [hc] at hball
          obtain ⟨pf, hpfm, hpfe⟩ := List.any_eq_true.mp hball
          have h2 : pf.id ≤ maxId (db.processed_files.map ProcFile.id) :=
            le_maxId (List.mem_map_of_mem ProcFile.id hpfm)
          rw [beq_iff_eq] at hpfe
          rw [freshFileId] at hpfe
          omega
        have h2 : rows.filter
            (fun t => t.file_id != some (freshFileId db)) = [] := by
          apply List.filter_eq_nil_iff.mpr
          intro u hu
          simp [hrows u hu]
        rw [h1, h2, List.append_nil]
      have hpfs : dbI.processed_files.filter
          (fun g => g.id != freshFileId db) = db.processed_files := by
        rw [hpf, List.filter_append]
        have h1 : db.processed_files.filter
            (fun g => g.id != freshFileId db) = db.processed_files := by
          apply List.filter_eq_self.mpr
          intro g hg
          simp only [bne_iff_ne, ne_eq, decide_eq_true_eq]
          intro hc
          have h2 : g.id ≤ maxId (db.processed_files.map ProcFile.id) :=
            le_maxId (List.mem_map_of_mem ProcFile.id hg)
          rw [freshFileId] at hc
          omega
        have h2 : List.filter (fun g => g.id != freshFileId db)
            [(⟨freshFileId db, filename, aid⟩ : ProcFile)] = [] := by
          simp [List.filter]
        rw [h1, h2, List.append_nil]
      rw [htrans, hpfs, hacc]
  exact ⟨hmain, fun a => by rw [hmain], by rw [hmain]⟩

/-- C8 witness: an insert of a fresh filename followed by its undo is the
identity on the store. -/
theorem c8_witness : undo_file_import db8I "w.csv" = (true, db8) :=
  (c8_insert_then_undo_roundtrip db8 "w.csv" "PNC Checking" batchW8 db8I
    (by decide) (by decide) (by decide)).1

/-- C9: `get_all_account_balances` returns one entry for every pre-seeded
account, and each entry carries exactly what `get_account_balance`
reports for that account — the stored balance of the newest row (by
date, ties broken by the larger rowid), zero when the account has no
transactions. -/
theorem c9_all_balances_agree (db : DBState)
    (hids : db.transactions.Pairwise (fun a b => a.id < b.id))
    (hnames : (db.accounts.map Prod.snd).Nodup) :
    get_all_account_balances db =
      db.accounts.map (fun p => (p.2, get_account_balance db p.2)) := by
  rw [get_all_account_balances]
  apply List.map_congr_left
  intro p hp
  have hfil : accountTxns db p.2 =
      db.transactions.filter (fun t => t.account_id == p.1) := by
    rw [accountTxns]
    apply List.filter_congr
    intro t ht
    by_cases hacc : t.account_id = p.1
    · have h1 : (db.accounts.any
          (fun q => q.1 == t.account_id && q.2 == p.2)) = true :=
        List.any_eq_true.mpr ⟨p, hp, by simp [hacc]⟩
      rw [h1, hacc]
      simp
    · have h1 : (db.accounts.any
          (fun q => q.1 == t.account_id && q.2 == p.2)) = false := by
        rw [Bool.eq_false_iff]
        intro hc
        obtain ⟨q, hq, hqq⟩ := List.any_eq_true.mp hc
        rw [Bool.and_eq_true, beq_iff_eq, beq_iff_eq] at hqq
        have h2 : q = p := List.inj_on_of_nodup_map hnames hq hp hqq.2
        exact hacc (by rw [← hqq.1, h2])
      simp [h1, hacc]
  have hpair : (db.transactions.filter
      (fun t => t.account_id == p.1)).Pairwise (fun a b => a.id < b.id) :=
    List.Pairwise.sublist (List.filter_sublist _) hids
  rw [get_account_balance, hfil, mostRecent_eq_lastLatest hpair]

/-- C9 witness: on a store with a date tie and an empty account, the two
queries agree on every seeded account. -/
theorem c9_witness :
    get_all_account_balances db9 =
      db9.accounts.map (fun p => (p.2, get_account_balance db9 p.2)) :=
  c9_all_balances_agree db9 (by decide) (by decide)

end WealthTracker
